import Mathlib

/-!
Verification of the essay-evaluation pipeline in `Tutor.py`.

The Python source is shallowly embedded: strings are modelled as `List Char`
(lifted to `String` at the interfaces), dictionaries as association lists with
insert-or-replace semantics, machine integers as `Int`, and code that can
raise as `Except`.  Outbound generation-service calls are modelled as
`Except Unit`-valued oracles supplied as parameters.
-/

/-! ## Python string primitives -/

def nlChar : Char := Char.ofNat 10

def colonChar : Char := Char.ofNat 58

def spaceChar : Char := Char.ofNat 32

def quoteChar : Char := Char.ofNat 34

/-- The whitespace set of Python `str.strip` / `str.split` (ASCII part). -/
def sp (c : Char) : Bool :=
  c == spaceChar || c == Char.ofNat 9 || c == nlChar ||
  c == Char.ofNat 13 || c == Char.ofNat 11 || c == Char.ofNat 12

/-- Python `str.lower`, restricted to ASCII letters and the Latin-1
uppercase range actually reachable in this pipeline's text. -/
def pyLowerC (c : Char) : Char :=
  let n := c.toNat
  if 65 ≤ n ∧ n ≤ 90 then Char.ofNat (n + 32)
  else if 192 ≤ n ∧ n ≤ 222 ∧ n ≠ 215 then Char.ofNat (n + 32)
  else c

def pyLowerL (cs : List Char) : List Char := cs.map pyLowerC

/-- Strip characters satisfying `p` from both ends (Python `str.strip(chars)`). -/
def genStrip (p : Char → Bool) (cs : List Char) : List Char :=
  ((cs.dropWhile p).reverse.dropWhile p).reverse

/-- Python `str.strip()` (no argument: whitespace). -/
def pyStrip (cs : List Char) : List Char := genStrip sp cs

/-- Python `str.strip(chr(34))`: removes ALL leading and trailing quote
characters, not just one pair. -/
def stripQuotes (cs : List Char) : List Char := genStrip (fun c => c == quoteChar) cs

/-- Python `str.split(sep)` for a single separator character: keeps empty
fields, `""` splits to `[""]`. -/
def splitOnChar (sep : Char) : List Char → List (List Char)
  | [] => [[]]
  | c :: cs =>
    match splitOnChar sep cs with
    | [] => [[c]]
    | h :: t => if c == sep then [] :: h :: t else (c :: h) :: t

/-- Python substring test `needle in hay`. -/
def containsSub (needle : List Char) : List Char → Bool
  | [] => needle.isEmpty
  | c :: cs => needle.isPrefixOf (c :: cs) || containsSub needle cs

/-- All-digit parse of a nonempty string of ASCII digits. -/
def digitsToNat : List Char → Option Nat
  | [] => none
  | [c] => if 48 ≤ c.toNat ∧ c.toNat ≤ 57 then some (c.toNat - 48) else none
  | c :: cs =>
    if 48 ≤ c.toNat ∧ c.toNat ≤ 57 then
      match digitsToNat cs with
      | some n => some ((c.toNat - 48) * 10 ^ cs.length + n)
      | none => none
    else none

/-- Python `int(token)` on an already-stripped token: optional sign then
decimal digits (digit-group underscores are not modelled). -/
def pyParseInt (cs : List Char) : Option Int :=
  match cs with
  | c :: rest =>
    if c == Char.ofNat 45 then (digitsToNat rest).map (fun n => -(n : Int))
    else if c == Char.ofNat 43 then (digitsToNat rest).map (fun n => (n : Int))
    else (digitsToNat (c :: rest)).map (fun n => (n : Int))
  | [] => none

/-- Word counter matching `len(texto.split())`: number of maximal
non-whitespace runs.  The flag records whether we are inside a word. -/
def wcAux : Bool → List Char → Nat
  | _, [] => 0
  | inWord, c :: cs =>
    if sp c then wcAux false cs
    else (if inWord then 0 else 1) + wcAux true cs

def pyWordCount (cs : List Char) : Nat := wcAux false cs

/-- Python falsiness of `texto` or `texto.strip()`: empty or all whitespace. -/
def pyBlank (cs : List Char) : Bool := cs.all sp

/-- `' '.join(...)` on character lists. -/
def joinSpace : List (List Char) → List Char
  | [] => []
  | [x] => x
  | x :: xs => x ++ spaceChar :: joinSpace xs

/-- `'\n'.join(...)`, used to build multi-line inputs in theorems. -/
def joinNl : List (List Char) → List Char
  | [] => []
  | [x] => x
  | x :: xs => x ++ nlChar :: joinNl xs

/-! ## Dictionaries (Python `dict` as association list) -/

/-- An error record: a Python dict from field names to strings. -/
def Erro : Type := List (String × String)

instance : DecidableEq Erro := inferInstanceAs (DecidableEq (List (String × String)))

/-- `d[k] = v`: replace the value at an existing key in place, else append. -/
def dictInsert (k v : String) : Erro → Erro
  | [] => [(k, v)]
  | (k1, v1) :: rest =>
    if k1 == k then (k1, v) :: rest else (k1, v1) :: dictInsert k v rest

/-- `d.get(k, "")`. -/
def getv (erro : Erro) (k : String) : String :=
  ((erro.find? (fun p => p.1 == k)).map (fun p => p.2)).getD ("")

/-- `k in d`. -/
def hasKey (erro : Erro) (k : String) : Bool :=
  (erro.find? (fun p => p.1 == k)).isSome

/-! ## `validar_redacao` (Tutor.py lines 147-171) -/

def validar_redacao (texto tema : String) : Bool × String :=
  if pyBlank texto.toList then
    (false, "O texto da redação não pode estar vazio.")
  else if pyBlank tema.toList then
    (false, "O tema da redação não pode estar vazio.")
  else
    let palavras := pyWordCount texto.toList
    if palavras < 50 then
      (false, "Texto muito curto (" ++ toString palavras ++
        " palavras). Mínimo recomendado: 400 palavras.")
    else if 3000 < palavras then
      (false, "Texto muito longo (" ++ toString palavras ++
        " palavras). Máximo recomendado: 3000 palavras.")
    else
      (true, "")

/-! ## `extrair_erros_do_resultado` (Tutor.py lines 173-200 / 2061-2088)

The regex `re.findall(r'ERRO\n(.*?)\nFIM_ERRO', resultado, re.DOTALL)` is
realized by repeated leftmost search: find the first `"ERRO\n"`, then the
first following `"\nFIM_ERRO"` (lazy capture), emit the body, continue after
the end marker.  When the earliest start marker has no closing marker, no
later start can have one either, so the scan ends — exactly the regex
engine's behaviour. -/

def erroPatL : List Char := "ERRO".toList

def startPatL : List Char := "ERRO\n".toList

def endPatL : List Char := "\nFIM_ERRO".toList

/-- Split at the first occurrence of `pat`: `some (before, after)`. -/
def splitOnceAfter (pat : List Char) : List Char → Option (List Char × List Char)
  | [] => if pat.isEmpty then some ([], []) else none
  | c :: cs =>
    if pat.isPrefixOf (c :: cs) then some ([], (c :: cs).drop pat.length)
    else
      match splitOnceAfter pat cs with
      | some (pre, post) => some (c :: pre, post)
      | none => none

/-- One regex match: the body of the next `ERRO`/`FIM_ERRO` region and the
remaining text after its end marker. -/
def step (s : List Char) : Option (List Char × List Char) :=
  (splitOnceAfter startPatL s).bind
    (fun pr => (splitOnceAfter endPatL pr.2).map (fun br => (br.1, br.2)))

/-- Fuelled match loop (each match consumes at least 14 characters, so
`s.length + 1` fuel always suffices; fuel keeps the definition
kernel-evaluable). -/
def blocosFuel : Nat → List Char → List (List Char)
  | 0, _ => []
  | fuel + 1, s =>
    match step s with
    | none => []
    | some (body, rest2) => body :: blocosFuel fuel rest2

def blocos (s : List Char) : List (List Char) := blocosFuel (s.length + 1) s

/-- One `key: value` line of a block body. -/
def parseLinha (erro : Erro) (linha : List Char) : Erro :=
  if linha.any (fun c => c == colonChar) then
    let chave := (pyLowerL (pyStrip (linha.takeWhile (fun c => !(c == colonChar))))).asString
    let valor0 := pyStrip ((linha.dropWhile (fun c => !(c == colonChar))).drop 1)
    let valor := if chave = ("trecho" : String) then stripQuotes valor0 else valor0
    dictInsert chave valor.asString erro
  else erro

def parseBloco (body : List Char) : Erro :=
  (splitOnChar nlChar body).foldl parseLinha []

def temDescricaoETrecho (e : Erro) : Bool :=
  hasKey e ("descrição") && hasKey e ("trecho")

def extrair_erros_do_resultado (resultado : String) : List Erro :=
  ((blocos resultado.toList).map parseBloco).filter temDescricaoETrecho

/-! ## `extrair_nota_e_justificativa` (Tutor.py lines 2136-2170) -/

def notaLabelL : List Char := "Nota:".toList

def justLabelL : List Char := "Justificativa:".toList

/-- `linha.split(':')[1]`, guarded by the `Nota:` check so index 1 exists. -/
def notaToken (linha : List Char) : List Char :=
  pyStrip ((splitOnChar colonChar linha).getD 1 [])

/-- The `for linha in linhas` loop: state is the last parsed score, the
`lendo_justificativa` flag and the accumulated justification lines. -/
def extrairLoop :
    List (List Char) → Option Int → Bool → List (List Char) →
      Except String (Option Int × List (List Char))
  | [], nota, _, acc => .ok (nota, acc)
  | l :: rest, nota, lendo, acc =>
    let linha := pyStrip l
    if notaLabelL.isPrefixOf linha then
      match pyParseInt (notaToken linha) with
      | none => .error ("Formato de nota inválido")
      | some n => extrairLoop rest (some n) lendo acc
    else if justLabelL.isPrefixOf linha then
      extrairLoop rest nota true acc
    else if lendo && !linha.isEmpty then
      extrairLoop rest nota lendo (acc ++ [linha])
    else
      extrairLoop rest nota lendo acc

def linhasDe (resposta : String) : List (List Char) :=
  splitOnChar nlChar (pyStrip resposta.toList)

def extrair_nota_e_justificativa (resposta : String) : Except String (Int × String) :=
  match extrairLoop (linhasDe resposta) none false [] with
  | .error e => .error e
  | .ok (none, _) => .error ("Nota não encontrada na resposta")
  | .ok (some n, acc) => .ok (n, (joinSpace acc).asString)

/-! ## Defect classifier of `analisar_competency1` (Tutor.py lines 218-257) -/

def palavras_chave_sugestao : List String :=
  ["pode ser melhorada", "poderia ser", "considerar", "sugerimos",
   "recomendamos", "ficaria melhor", "seria preferível", "opcionalmente",
   "para aprimorar", "para enriquecer", "estilo", "clareza", "mais elegante",
   "sugestão de melhoria", "alternativa", "opcional"]

def explicacaoAcentuadaDe (erro : Erro) : List Char :=
  pyLowerL ((getv erro ("explicação")).toList)

def ehSugestao (erro : Erro) : Bool :=
  let explicacao := explicacaoAcentuadaDe erro
  let sugestao := pyLowerL ((getv erro ("sugestão")).toList)
  palavras_chave_sugestao.any
    (fun p => containsSub p.toList explicacao || containsSub p.toList sugestao)

def mencionaCrase (erro : Erro) : Bool :=
  containsSub ("crase".toList) (pyLowerL ((getv erro ("descrição")).toList))

/-- Definite-sense signal of the crase gate. -/
def temSinalDefinido (expl : List Char) : Bool :=
  (["artigo definido", "sentido definido", "locução"] : List String).any
    (fun t => containsSub t.toList expl)

/-- Government/regência signal of the crase gate. -/
def temSinalRegencia (expl : List Char) : Bool :=
  (["regência", "preposição", "artigo feminino"] : List String).any
    (fun t => containsSub t.toList expl)

/-- The `for erro in todos_erros` loop: returns
`(erros_reais, sugestoes_estilo)` in source order. -/
def classificar_erros_competency1 : List Erro → List Erro × List Erro
  | [] => ([], [])
  | erro :: rest =>
    let (reais, sugs) := classificar_erros_competency1 rest
    if ehSugestao erro then
      (reais, erro :: sugs)
    else if mencionaCrase erro then
      if temSinalDefinido (explicacaoAcentuadaDe erro) &&
         temSinalRegencia (explicacaoAcentuadaDe erro) then
        (erro :: reais, sugs)
      else (reais, sugs)
    else (erro :: reais, sugs)

/-! ## Rule-based baseline of `atribuir_nota_competency1`
(Tutor.py lines 942-996) -/

structure Contagem where
  sintaxe : Nat
  ortografia : Nat
  concordancia : Nat
  pontuacao : Nat
  crase : Nat
  registro : Nat
deriving DecidableEq, Repr

def zeroContagem : Contagem := ⟨0, 0, 0, 0, 0, 0⟩

def addCount (b : Bool) : Nat := if b then 1 else 0

/-- Keyword-count loop.  NOTE the source reads `erro.get('explicacao', '')`
with the UNACCENTED key. -/
def contagem_erros : List Erro → Contagem
  | [] => zeroContagem
  | erro :: rest =>
    let c := contagem_erros rest
    let desc := pyLowerL ((getv erro ("explicacao")).toList)
    { sintaxe := addCount (containsSub ("sintax".toList) desc ||
        containsSub ("estrutura".toList) desc) + c.sintaxe
      ortografia := addCount (containsSub ("ortograf".toList) desc ||
        containsSub ("accent".toList) desc || containsSub ("escrita".toList) desc) + c.ortografia
      concordancia := addCount (containsSub ("concord".toList) desc ||
        containsSub ("verbal".toList) desc || containsSub ("nominal".toList) desc) + c.concordancia
      pontuacao := addCount (containsSub ("pontu".toList) desc) + c.pontuacao
      crase := addCount (containsSub ("crase".toList) desc) + c.crase
      registro := addCount (containsSub ("coloquial".toList) desc ||
        containsSub ("registro".toList) desc || containsSub ("informal".toList) desc) + c.registro }

def total_erros (c : Contagem) : Nat :=
  c.sintaxe + c.ortografia + c.concordancia + c.pontuacao + c.crase + c.registro

def nota_base_aux (c : Contagem) : Int :=
  if total_erros c ≤ 3 ∧ c.sintaxe ≤ 1 ∧ c.registro = 0 ∧ c.ortografia ≤ 1 then 200
  else if total_erros c ≤ 5 ∧ c.sintaxe ≤ 2 ∧ c.registro ≤ 1 then 160
  else if total_erros c ≤ 8 ∧ c.sintaxe ≤ 3 then 120
  else if total_erros c ≤ 12 then 80
  else if total_erros c ≤ 15 then 40
  else 0

def nota_base_competency1 (erros : List Erro) : Int :=
  nota_base_aux (contagem_erros erros)

/-! ## Score reconciliation and fallbacks
(`atribuir_nota_competency1` lines 1069-1097, `atribuir_nota_competency2`
lines 1167-1191; competencies 3-5 repeat the competency-2 shape) -/

def rungsL : List Int := [0, 40, 80, 120, 160, 200]

def ajusteProximoMsg : String := "\nNota ajustada para o valor válido mais próximo."

def ajusteGravidadeMsg : String :=
  "\nNota ajustada devido à quantidade e gravidade dos erros identificados."

def fallbackMsg1 : String :=
  "Erro ao gerar justificativa. Nota atribuída com base nos critérios objetivos."

def fallbackMsg2 : String := "Erro ao gerar nota e justificativa."

/-- Competency-1 validation of the service score against the baseline. -/
def reconcile1 (notaBase : Int) (r : Int × String) : Int × String :=
  let r1 := if r.1 ∈ rungsL then r else (notaBase, r.2 ++ ajusteProximoMsg)
  if 40 < (r1.1 - notaBase).natAbs then
    (min notaBase r1.1, r1.2 ++ ajusteGravidadeMsg)
  else r1

/-- Python `round(n / 40)` for integer `n`: round half to even (the tie
values `n = 40q + 20` are exactly representable as binary floats, so the
float detour in the source changes nothing). -/
def pyRound40 (n : Int) : Int :=
  if n % 40 < 20 then n / 40
  else if 20 < n % 40 then n / 40 + 1
  else if (n / 40) % 2 = 0 then n / 40 else n / 40 + 1

/-- Competency-2..5 validation: snap to the nearest multiple of 40 clamped
to [0, 200]. -/
def reconcile2 (r : Int × String) : Int × String :=
  if r.1 ∈ rungsL then r
  else (max 0 (min 200 (40 * pyRound40 r.1)), r.2 ++ ajusteProximoMsg)

/-- Outcome of the score-generation request: the raw response text, or a
transport failure. -/
def SvcResp : Type := Except Unit String

def isErr {ε α : Type} : Except ε α → Bool
  | .error _ => true
  | .ok _ => false

/-- The `try` block of `atribuir_nota_competency1`: generation, extraction,
rung validation, baseline-deviation clamp; any raise falls back to the
baseline score. -/
def atribuir_nota_competency1 (svc : SvcResp) (analise : String)
    (erros : List Erro) : Int × String :=
  let notaBase := nota_base_competency1 erros
  match svc with
  | .error _ => (notaBase, fallbackMsg1)
  | .ok texto =>
    match extrair_nota_e_justificativa texto with
    | .error _ => (notaBase, fallbackMsg1)
    | .ok r => reconcile1 notaBase r

/-- The `try` block of `atribuir_nota_competency2` (same shape for 3-5):
any raise falls back to score 0. -/
def atribuir_nota_competency2 (svc : SvcResp) (analise : String)
    (erros : List Erro) : Int × String :=
  match svc with
  | .error _ => (0, fallbackMsg2)
  | .ok texto =>
    match extrair_nota_e_justificativa texto with
    | .error _ => (0, fallbackMsg2)
    | .ok r => reconcile2 r

/-- True when the score-generation step raises: transport failure or
`extrair_nota_e_justificativa` failure. -/
def scoreStepFails (svc : SvcResp) : Bool :=
  match svc with
  | .error _ => true
  | .ok texto => isErr (extrair_nota_e_justificativa texto)

/-! ## Orchestrator `processar_redacao_completa` (Tutor.py lines 60-145) -/

inductive Comp
  | c1
  | c2
  | c3
  | c4
  | c5
deriving DecidableEq, Repr, Fintype

def allComps : List Comp := [.c1, .c2, .c3, .c4, .c5]

/-- Result of `analisar_competencyN`: narrative, revised errors and (for
competency 1 only) style suggestions. -/
structure AnaliseRes where
  analise : String
  erros : List Erro
  sugestoes_estilo : Option (List Erro)
deriving DecidableEq

/-- The per-competency slice of the `resultados` dict. -/
structure CompRecord where
  analise : String
  nota : Int
  justificativa : String
  erros : List Erro
  total_erros : Nat
  sugestoes_estilo : Option (List Erro)
deriving DecidableEq

/-- What the `except` branch of the orchestrator records. -/
def compFail : CompRecord :=
  { analise := "Erro na análise"
    nota := 0
    justificativa := "Não foi possível realizar a análise"
    erros := []
    total_erros := 0
    sugestoes_estilo := none }

/-- One iteration of the orchestrator's `for comp in COMPETENCIES` loop:
the `try` body with the analysis and scoring oracles, caught by `except`. -/
def runComp (analisar : Comp → Except Unit AnaliseRes)
    (atribuir : Comp → String → List Erro → Except Unit (Int × String))
    (c : Comp) : CompRecord :=
  match analisar c with
  | .error _ => compFail
  | .ok a =>
    match atribuir c a.analise a.erros with
    | .error _ => compFail
    | .ok nj =>
      { analise := a.analise
        nota := nj.1
        justificativa := nj.2
        erros := a.erros
        total_erros := a.erros.length
        sugestoes_estilo := a.sugestoes_estilo }

/-- True when an exception is raised somewhere inside the criterion's
analysis-or-scoring pipeline. -/
def pipelineRaises (analisar : Comp → Except Unit AnaliseRes)
    (atribuir : Comp → String → List Erro → Except Unit (Int × String))
    (c : Comp) : Bool :=
  match analisar c with
  | .error _ => true
  | .ok a => isErr (atribuir c a.analise a.erros)

structure Resultados where
  recs : Comp → CompRecord
  nota_total : Int

def processar_redacao_completa (analisar : Comp → Except Unit AnaliseRes)
    (atribuir : Comp → String → List Erro → Except Unit (Int × String)) :
    Resultados :=
  let recs := runComp analisar atribuir
  { recs := recs
    nota_total := (allComps.map (fun c => (recs c).nota)).sum }

/-! ## Utility lemmas -/

lemma wcAux_of_blank (cs : List Char) (h : pyBlank cs = true) :
    ∀ b, wcAux b cs = 0 := by
  induction cs with
  | nil => intro b; rfl
  | cons c cs ih =>
    intro b
    simp only [pyBlank, List.all_cons, Bool.and_eq_true] at h
    simp only [wcAux, h.1, if_true]
    exact ih (by simpa [pyBlank] using h.2) false

lemma pyBlank_false_of_count (cs : List Char) (n : Nat) (hn : n ≠ 0)
    (h : pyWordCount cs = n) : pyBlank cs = false := by
  by_contra hb
  have hb2 : pyBlank cs = true := by
    cases hcs : pyBlank cs
    · exact absurd hcs hb
    · rfl
  have := wcAux_of_blank cs hb2 false
  rw [pyWordCount] at h
  omega

/-! ## C10: submission validation boundary -/

/-- Claim C10: validation rejects a blank essay or blank topic; an essay of
exactly 50 words passes; one of 49 words fails with a length message whose
text advertises a 400-word minimum even though the enforced threshold is
50 words. -/
theorem c10_validar_boundary (texto tema : String) :
    (pyBlank texto.toList = true →
      validar_redacao texto tema =
        (false, "O texto da redação não pode estar vazio.")) ∧
    (pyBlank texto.toList = false → pyBlank tema.toList = true →
      validar_redacao texto tema =
        (false, "O tema da redação não pode estar vazio.")) ∧
    (pyBlank tema.toList = false → pyWordCount texto.toList = 50 →
      validar_redacao texto tema = (true, "")) ∧
    (pyBlank tema.toList = false → pyWordCount texto.toList = 49 →
      validar_redacao texto tema =
        (false, "Texto muito curto (49 palavras). Mínimo recomendado: 400 palavras.")) := by
  refine ⟨?_, ?_, ?_, ?_⟩
  · intro h
    have h1 : pyBlank texto.data = true := h
    simp [validar_redacao, h1]
  · intro h1 h2
    have h1a : pyBlank texto.data = false := h1
    have h2a : pyBlank tema.data = true := h2
    simp [validar_redacao, h1a, h2a]
  · intro h1 h2
    have hb : pyBlank texto.data = false := pyBlank_false_of_count _ 50 (by decide) h2
    have h1a : pyBlank tema.data = false := h1
    have h2a : pyWordCount texto.data = 50 := h2
    simp [validar_redacao, hb, h1a, h2a]
  · intro h1 h2
    have hb : pyBlank texto.data = false := pyBlank_false_of_count _ 49 (by decide) h2
    have h1a : pyBlank tema.data = false := h1
    have h2a : pyWordCount texto.data = 49 := h2
    simp [validar_redacao, hb, h1a, h2a]
    rfl

def texto50 : String := String.intercalate (" ") (List.replicate 50 ("a"))

def texto49 : String := String.intercalate (" ") (List.replicate 49 ("a"))

set_option maxRecDepth 20000 in
/-- Witness for C10 at concrete inputs: a 50-word essay passes, a 49-word
essay fails with the 400-word message. -/
theorem c10_validar_boundary_witness :
    validar_redacao texto50 ("tema") = (true, "") ∧
    validar_redacao texto49 ("tema") =
      (false, "Texto muito curto (49 palavras). Mínimo recomendado: 400 palavras.") := by
  constructor
  · exact (c10_validar_boundary texto50 ("tema")).2.2.1 (by decide) (by decide)
  · exact (c10_validar_boundary texto49 ("tema")).2.2.2 (by decide) (by decide)

/-! ## C3: deterministic baseline decision table -/

/-- Claim C3: for every confirmed-error list, the keyword-count baseline is
one of the six rungs, and it is 200 exactly when the total count is at most 3
with at most 1 syntax defect, 0 register defects and at most 1 spelling
defect. -/
theorem c3_nota_base_table (erros : List Erro) :
    nota_base_competency1 erros ∈ rungsL ∧
    (nota_base_competency1 erros = 200 ↔
      (total_erros (contagem_erros erros) ≤ 3 ∧
       (contagem_erros erros).sintaxe ≤ 1 ∧
       (contagem_erros erros).registro = 0 ∧
       (contagem_erros erros).ortografia ≤ 1)) := by
  unfold nota_base_competency1 nota_base_aux
  split_ifs with h1 h2 h3 h4 h5
  · exact ⟨by decide, by simp [h1]⟩
  · exact ⟨by decide, ⟨fun h => absurd h (by decide), fun hc => absurd hc h1⟩⟩
  · exact ⟨by decide, ⟨fun h => absurd h (by decide), fun hc => absurd hc h1⟩⟩
  · exact ⟨by decide, ⟨fun h => absurd h (by decide), fun hc => absurd hc h1⟩⟩
  · exact ⟨by decide, ⟨fun h => absurd h (by decide), fun hc => absurd hc h1⟩⟩
  · exact ⟨by decide, ⟨fun h => absurd h (by decide), fun hc => absurd hc h1⟩⟩

/-- Witness for C3: an empty confirmed-error list scores baseline 200. -/
theorem c3_nota_base_table_witness :
    nota_base_competency1 [] = 200 ∧ nota_base_competency1 [] ∈ rungsL :=
  ⟨(c3_nota_base_table []).2.mpr (by decide), (c3_nota_base_table []).1⟩

/-! ## C4: parser writes `explicação`, baseline reads `explicacao` -/

lemma contagem_zero (erros : List Erro)
    (h : ∀ e ∈ erros, getv e ("explicacao") = "") :
    contagem_erros erros = zeroContagem := by
  induction erros with
  | nil => rfl
  | cons e rest ih =>
    have he : getv e ("explicacao") = "" := h e (by simp)
    have hrest := ih (fun x hx => h x (by simp [hx]))
    simp only [contagem_erros]
    rw [he, hrest]
    rfl

/-- Claim C4 (implicit): the structured-block parser stores explanations
under the accented key `explicação` while the competency-1 baseline reads
the unaccented `explicacao`; hence on any parser output whose records lack
the unaccented key, every category count is zero, the total is zero and the
baseline is 200 regardless of how many defects were parsed. -/
theorem c4_accent_mismatch (resultado : String)
    (h : ∀ e ∈ extrair_erros_do_resultado resultado, getv e ("explicacao") = "") :
    contagem_erros (extrair_erros_do_resultado resultado) = zeroContagem ∧
    total_erros (contagem_erros (extrair_erros_do_resultado resultado)) = 0 ∧
    nota_base_competency1 (extrair_erros_do_resultado resultado) = 200 := by
  have hc := contagem_zero _ h
  refine ⟨hc, ?_, ?_⟩
  · rw [hc]; rfl
  · unfold nota_base_competency1
    rw [hc]
    rfl



def c4txt : String :=
  "ERRO\nDescrição: vírgula mal usada\nTrecho: \"casa azul\"\nExplicação: erro de sintaxe e pontuação e ortografia\nFIM_ERRO\nERRO\nDescrição: desvio de concordância\nTrecho: \"eles vai\"\nExplicação: erro grave de concordância verbal e registro informal\nFIM_ERRO"

set_option maxRecDepth 40000 in
/-- Witness for C4: a response with two parsed defect blocks whose accented
explanations name many categories still yields baseline 200. -/
theorem c4_accent_mismatch_witness :
    (extrair_erros_do_resultado c4txt).length = 2 ∧
    nota_base_competency1 (extrair_erros_do_resultado c4txt) = 200 :=
  ⟨by decide, (c4_accent_mismatch c4txt (by decide)).2.2⟩

/-! ## C1: per-criterion failure isolation in the orchestrator -/

/-- Claim C1: when one criterion's analysis-or-scoring pipeline raises and
the other four do not, that criterion alone is recorded as the failure
record (score 0, narrative "Erro na análise", justification "Não foi
possível realizar a análise"), each other criterion's record is exactly what
its own pipeline produced, and the total score is the sum of the five
per-criterion scores. -/
theorem c1_isolation (analisar : Comp → Except Unit AnaliseRes)
    (atribuir : Comp → String → List Erro → Except Unit (Int × String))
    (c0 : Comp)
    (hfail : pipelineRaises analisar atribuir c0 = true)
    (hok : ∀ c, c ≠ c0 → pipelineRaises analisar atribuir c = false) :
    ((processar_redacao_completa analisar atribuir).recs c0 = compFail) ∧
    (∀ c, c ≠ c0 → ∃ a nj, analisar c = .ok a ∧
      atribuir c a.analise a.erros = .ok nj ∧
      (processar_redacao_completa analisar atribuir).recs c =
        { analise := a.analise, nota := nj.1, justificativa := nj.2,
          erros := a.erros, total_erros := a.erros.length,
          sugestoes_estilo := a.sugestoes_estilo }) ∧
    ((processar_redacao_completa analisar atribuir).nota_total =
      (allComps.map
        (fun c => ((processar_redacao_completa analisar atribuir).recs c).nota)).sum) := by
  refine ⟨?_, ?_, rfl⟩
  · show runComp analisar atribuir c0 = compFail
    cases ha : analisar c0 with
    | error e => simp [runComp, ha]
    | ok a =>
      cases hb : atribuir c0 a.analise a.erros with
      | error e => simp [runComp, ha, hb]
      | ok nj =>
        exfalso
        have hf : pipelineRaises analisar atribuir c0 = false := by
          simp [pipelineRaises, ha, hb, isErr]
        rw [hfail] at hf
        exact Bool.noConfusion hf
  · intro c hc
    have h := hok c hc
    cases ha : analisar c with
    | error e =>
      exfalso
      have hf : pipelineRaises analisar atribuir c = true := by
        simp [pipelineRaises, ha]
      rw [h] at hf
      exact Bool.noConfusion hf
    | ok a =>
      cases hb : atribuir c a.analise a.erros with
      | error e =>
        exfalso
        have hf : pipelineRaises analisar atribuir c = true := by
          simp [pipelineRaises, ha, hb, isErr]
        rw [h] at hf
        exact Bool.noConfusion hf
      | ok nj =>
        refine ⟨a, nj, rfl, hb, ?_⟩
        show runComp analisar atribuir c = _
        simp [runComp, ha, hb]

def analisarW : Comp → Except Unit AnaliseRes :=
  fun c =>
    match c with
    | .c3 => .error ()
    | _ => .ok { analise := "ok", erros := [], sugestoes_estilo := none }

def atribuirW : Comp → String → List Erro → Except Unit (Int × String) :=
  fun c a e => .ok (160, "boa")

/-- Witness for C1: with an oracle pair where only criterion 3's pipeline
raises, the orchestrator records criterion 3 as the failure record and the
total is still the sum of the five scores. -/
theorem c1_isolation_witness :
    (processar_redacao_completa analisarW atribuirW).recs .c3 = compFail ∧
    (processar_redacao_completa analisarW atribuirW).nota_total =
      (allComps.map
        (fun c => ((processar_redacao_completa analisarW atribuirW).recs c).nota)).sum := by
  have h := c1_isolation analisarW atribuirW .c3 (by decide) (by decide)
  exact ⟨h.1, h.2.2⟩

/-! ## C2: score reconciliation -/

/-- Counterexample to C2 as stated: competency 1's reconciliation does NOT
snap an invalid service score to the nearest rung.  With an empty error list
the baseline is 200; service score 150 has nearest rung 160 (and the
deviation check would then keep 160), but the code returns 200 — the
baseline. -/
theorem c2_counterexample :
    atribuir_nota_competency1 (Except.ok ("Nota: 150\nJustificativa: ok")) ("") []
      = (200, ajusteProximoMsg) ∧
    (160 : Int) ∈ rungsL ∧
    (∀ r ∈ rungsL, ((160 : Int) - 150).natAbs ≤ (r - 150).natAbs) ∧
    (200 : Int) ≠ 160 := by
  decide

/-- Claim C2 amended: when the service score is a valid rung deviating from
the baseline by more than 40, competency 1 keeps the minimum of the two with
the deviation note (as claimed); when the service score is NOT a valid rung,
competency 1 replaces it with the baseline itself (with the nearest-value
note) — not the nearest rung — while competencies 2-5 snap it to the
nearest rung in the [0,200] range (round-half-to-even at ties). -/
theorem c2_amended (erros : List Erro) (nota : Int) (just : String) :
    ((nota ∈ rungsL ∧ 40 < (nota - nota_base_competency1 erros).natAbs) →
      reconcile1 (nota_base_competency1 erros) (nota, just) =
        (min (nota_base_competency1 erros) nota, just ++ ajusteGravidadeMsg)) ∧
    (nota ∉ rungsL →
      reconcile1 (nota_base_competency1 erros) (nota, just) =
        (nota_base_competency1 erros, just ++ ajusteProximoMsg)) ∧
    (nota ∉ rungsL →
      ((reconcile2 (nota, just)).1 ∈ rungsL ∧
       ∀ r ∈ rungsL, ((reconcile2 (nota, just)).1 - nota).natAbs ≤ (r - nota).natAbs)) := by
  refine ⟨?_, ?_, ?_⟩
  · rintro ⟨hmem, hdev⟩
    simp only [reconcile1]
    rw [if_pos hmem, if_pos hdev]
  · intro hmem
    simp only [reconcile1]
    rw [if_neg hmem, if_neg (by simp)]
  · intro hmem
    simp only [reconcile2]
    rw [if_neg hmem]
    constructor
    · show max 0 (min 200 (40 * pyRound40 nota)) ∈ rungsL
      simp only [rungsL, List.mem_cons, List.not_mem_nil, or_false]
      unfold pyRound40
      simp only [max_def, min_def]
      split_ifs <;> omega
    · intro r hr
      show ((max 0 (min 200 (40 * pyRound40 nota)) - nota).natAbs ≤ (r - nota).natAbs)
      simp only [rungsL, List.mem_cons, List.not_mem_nil, or_false] at hr
      unfold pyRound40
      simp only [max_def, min_def]
      rcases hr with rfl | rfl | rfl | rfl | rfl | rfl <;> split_ifs <;> omega

/-- Witness for C2 (amended): baseline 200 with valid service score 80 is
clamped to 80 with the deviation note; invalid service score 150 is replaced
by the baseline 200 for competency 1, and snapped to a valid rung by
competency 2's reconciliation. -/
theorem c2_amended_witness :
    reconcile1 (nota_base_competency1 []) (80, "J") =
      (min (nota_base_competency1 []) 80, "J" ++ ajusteGravidadeMsg) ∧
    reconcile1 (nota_base_competency1 []) (150, "J") =
      (nota_base_competency1 [], "J" ++ ajusteProximoMsg) ∧
    (reconcile2 (150, "J")).1 ∈ rungsL :=
  ⟨(c2_amended [] 80 ("J")).1 ⟨by decide, by decide⟩,
   (c2_amended [] 150 ("J")).2.1 (by decide),
   ((c2_amended [] 150 ("J")).2.2 (by decide)).1⟩

/-! ## C9: scoring-stage failure fallback -/

/-- Counterexample to C9 as stated: a transport failure in competency 1's
score-generation step yields the rule-based baseline (here 200), not
score 0. -/
theorem c9_counterexample :
    atribuir_nota_competency1 (Except.error ()) ("") [] = (200, fallbackMsg1) ∧
    (200 : Int) ≠ 0 := by
  decide

/-- Claim C9 amended: on any transport or parse failure of the
score-generation step, competency 1 falls back to the rule-based baseline
score with a generic justification, while competencies 2-5 fall back to
score 0 with a generic justification; in all cases a score is produced. -/
theorem c9_amended (svc : SvcResp) (analise : String) (erros : List Erro)
    (h : scoreStepFails svc = true) :
    atribuir_nota_competency1 svc analise erros =
      (nota_base_competency1 erros, fallbackMsg1) ∧
    atribuir_nota_competency2 svc analise erros = (0, fallbackMsg2) := by
  cases svc with
  | error e => exact ⟨rfl, rfl⟩
  | ok texto =>
    simp only [scoreStepFails] at h
    cases hx : extrair_nota_e_justificativa texto with
    | error e =>
      constructor
      · simp [atribuir_nota_competency1, hx]
      · simp [atribuir_nota_competency2, hx]
    | ok r =>
      rw [hx] at h
      simp [isErr] at h

/-- Witness for C9 (amended): a transport failure falls back to the
baseline for competency 1 and to 0 for competency 2. -/
theorem c9_amended_witness :
    atribuir_nota_competency1 (Except.error ()) ("") [] =
      (nota_base_competency1 [], fallbackMsg1) ∧
    atribuir_nota_competency2 (Except.error ()) ("") [] = (0, fallbackMsg2) :=
  c9_amended (Except.error ()) ("") [] (by decide)

/-! ## C8: crase conjunction gate -/

lemma crase_mem (erro : Erro) (hcrase : mencionaCrase erro = true) :
    ∀ erros : List Erro, erro ∈ (classificar_erros_competency1 erros).1 →
      temSinalDefinido (explicacaoAcentuadaDe erro) = true ∧
      temSinalRegencia (explicacaoAcentuadaDe erro) = true := by
  intro erros
  induction erros with
  | nil => intro h; simp [classificar_erros_competency1] at h
  | cons e rest ih =>
    intro hmem
    rcases hp : classificar_erros_competency1 rest with ⟨reais, sugs⟩
    rw [hp] at ih
    simp only [classificar_erros_competency1, hp] at hmem
    by_cases hs : ehSugestao e = true
    · simp [hs] at hmem
      exact ih hmem
    · by_cases hc : mencionaCrase e = true
      · by_cases hb : (temSinalDefinido (explicacaoAcentuadaDe e) &&
            temSinalRegencia (explicacaoAcentuadaDe e)) = true
        · simp [hs, hc, hb] at hmem
          rcases hmem with rfl | hmem
          · simpa [Bool.and_eq_true] using hb
          · exact ih hmem
        · simp [hs, hc, hb] at hmem
          exact ih hmem
      · simp [hs, hc] at hmem
        rcases hmem with rfl | hmem
        · exact absurd hcrase hc
        · exact ih hmem

/-- Claim C8: a parsed record whose description mentions crase is kept in
the real-defect list only when its explanation carries BOTH the
definite-sense signal and the government signal; with the conjunction
failing (in particular with only one signal) the record never reaches the
defect list. -/
theorem c8_crase_conjunction (erros : List Erro) (erro : Erro) :
    (erro ∈ (classificar_erros_competency1 erros).1 →
      mencionaCrase erro = true →
      temSinalDefinido (explicacaoAcentuadaDe erro) = true ∧
      temSinalRegencia (explicacaoAcentuadaDe erro) = true) ∧
    (mencionaCrase erro = true →
      ¬(temSinalDefinido (explicacaoAcentuadaDe erro) = true ∧
        temSinalRegencia (explicacaoAcentuadaDe erro) = true) →
      erro ∉ (classificar_erros_competency1 erros).1) :=
  ⟨fun hm hc => crase_mem erro hc erros hm,
   fun hc hnb hm => hnb (crase_mem erro hc erros hm)⟩

def erroCrase : Erro :=
  [("descrição", "uso indevido de crase"),
   ("explicação", "há preposição exigida pela regência do verbo")]

/-- Witness for C8: a crase record whose explanation has only the
government signal (preposição/regência) and no definite-sense signal is
excluded from the defect list. -/
theorem c8_crase_conjunction_witness :
    erroCrase ∉ (classificar_erros_competency1 [erroCrase]).1 :=
  (c8_crase_conjunction [erroCrase] erroCrase).2 (by decide) (by decide)

/-! ## C5: score parser hard failure, exactly characterized -/

def isNotaLine (l : List Char) : Bool := notaLabelL.isPrefixOf (pyStrip l)

def notaParses (l : List Char) : Bool := (pyParseInt (notaToken (pyStrip l))).isSome

lemma extrairLoop_isErr (ls : List (List Char)) :
    ∀ (nota : Option Int) (lendo : Bool) (acc : List (List Char)),
      isErr (extrairLoop ls nota lendo acc) =
        ls.any (fun l => isNotaLine l && !notaParses l) := by
  induction ls with
  | nil => intro nota lendo acc; rfl
  | cons l rest ih =>
    intro nota lendo acc
    simp only [extrairLoop, List.any_cons]
    by_cases h1 : notaLabelL.isPrefixOf (pyStrip l) = true
    · cases hp : pyParseInt (notaToken (pyStrip l)) with
      | none => simp [h1, hp, isNotaLine, notaParses, isErr]
      | some n => simp [h1, hp, isNotaLine, notaParses, ih]
    · by_cases h2 : justLabelL.isPrefixOf (pyStrip l) = true
      · simp [h1, h2, isNotaLine, ih]
      · by_cases h3 : (lendo && !(pyStrip l).isEmpty) = true
        · simp [h1, h2, h3, isNotaLine, ih]
        · simp [h1, h2, h3, isNotaLine, ih]

lemma extrairLoop_ok (ls : List (List Char)) :
    ∀ (nota : Option Int) (lendo : Bool) (acc : List (List Char)),
      ls.any (fun l => isNotaLine l && !notaParses l) = false →
      ∃ nota2 acc2, extrairLoop ls nota lendo acc = .ok (nota2, acc2) ∧
        nota2.isSome = (nota.isSome || ls.any isNotaLine) := by
  induction ls with
  | nil =>
    intro nota lendo acc _
    exact ⟨nota, acc, rfl, by simp⟩
  | cons l rest ih =>
    intro nota lendo acc h
    simp only [List.any_cons, Bool.or_eq_false_iff] at h
    simp only [extrairLoop, List.any_cons]
    by_cases h1 : notaLabelL.isPrefixOf (pyStrip l) = true
    · cases hp : pyParseInt (notaToken (pyStrip l)) with
      | none =>
        exfalso
        have hfalse := h.1
        simp [isNotaLine, notaParses, h1, hp] at hfalse
      | some n =>
        simp only [h1, if_true, hp]
        obtain ⟨nota2, acc2, heq, hiso⟩ := ih (some n) lendo acc h.2
        refine ⟨nota2, acc2, heq, ?_⟩
        simp [isNotaLine, h1, hiso]
    · have hl : isNotaLine l = false := by simp [isNotaLine, h1]
      by_cases h2 : justLabelL.isPrefixOf (pyStrip l) = true
      · simp only [h1, if_false, h2, if_true]
        obtain ⟨nota2, acc2, heq, hiso⟩ := ih nota true acc h.2
        exact ⟨nota2, acc2, heq, by simp [hl, hiso]⟩
      · by_cases h3 : (lendo && !(pyStrip l).isEmpty) = true
        · simp only [h1, if_false, h2, h3, if_true]
          obtain ⟨nota2, acc2, heq, hiso⟩ := ih nota lendo (acc ++ [pyStrip l]) h.2
          exact ⟨nota2, acc2, heq, by simp [hl, hiso]⟩
        · simp only [h1, if_false, h2, h3]
          obtain ⟨nota2, acc2, heq, hiso⟩ := ih nota lendo acc h.2
          exact ⟨nota2, acc2, heq, by simp [hl, hiso]⟩

/-- Claim C5: `extrair_nota_e_justificativa` fails (raises) exactly when no
line of the stripped input starts with the score label, or some score-label
line's token does not parse as an integer; in all other cases it returns a
result, so the failure is surfaced, never absorbed. -/
theorem c5_parser_error_iff (resposta : String) :
    isErr (extrair_nota_e_justificativa resposta) = true ↔
      ((∀ l ∈ linhasDe resposta, isNotaLine l = false) ∨
       (∃ l ∈ linhasDe resposta, isNotaLine l = true ∧ notaParses l = false)) := by
  unfold extrair_nota_e_justificativa
  by_cases hbad : (linhasDe resposta).any (fun l => isNotaLine l && !notaParses l) = true
  · have hA := extrairLoop_isErr (linhasDe resposta) none false []
    rw [hbad] at hA
    constructor
    · intro _
      right
      obtain ⟨l, hl, hpl⟩ := List.any_eq_true.mp hbad
      exact ⟨l, hl, by simpa [Bool.and_eq_true] using hpl⟩
    · intro _
      cases hq : extrairLoop (linhasDe resposta) none false [] with
      | error e => simp [hq, isErr]
      | ok pr => rw [hq] at hA; exact absurd hA.symm (by simp [isErr])
  · have hbad2 : (linhasDe resposta).any (fun l => isNotaLine l && !notaParses l) = false := by
      cases hx : (linhasDe resposta).any (fun l => isNotaLine l && !notaParses l)
      · rfl
      · exact absurd hx hbad
    obtain ⟨nota2, acc2, heq, hiso⟩ := extrairLoop_ok (linhasDe resposta) none false [] hbad2
    rw [heq]
    cases nota2 with
    | none =>
      have hnone : (linhasDe resposta).any isNotaLine = false := by
        simpa using hiso.symm
      constructor
      · intro _
        left
        intro l hl
        have := List.any_eq_false.mp hnone l hl
        simpa using this
      · intro _
        rfl
    | some n =>
      have hsome : (linhasDe resposta).any isNotaLine = true := by
        simpa using hiso.symm
      constructor
      · intro h
        exact absurd h (by simp [isErr])
      · rintro (hall | ⟨l, hl, hn, hnp⟩)
        · obtain ⟨l, hl, hpl⟩ := List.any_eq_true.mp hsome
          rw [hall l hl] at hpl
          exact Bool.noConfusion hpl
        · have : (linhasDe resposta).any (fun l => isNotaLine l && !notaParses l) = true :=
            List.any_eq_true.mpr ⟨l, hl, by simp [hn, hnp]⟩
          exact absurd this hbad

/-- Witness for C5: a response with no score line fails, and a response with
a well-formed score line succeeds. -/
theorem c5_parser_error_iff_witness :
    isErr (extrair_nota_e_justificativa ("sem nota aqui")) = true ∧
    isErr (extrair_nota_e_justificativa ("Nota: 160\nJustificativa: boa")) = false := by
  constructor
  · exact (c5_parser_error_iff ("sem nota aqui")).mpr (by decide)
  · cases hx : isErr (extrair_nota_e_justificativa ("Nota: 160\nJustificativa: boa"))
    · rfl
    · exact absurd ((c5_parser_error_iff _).mp hx) (by decide)

/-! ## C6: score/justification output shape -/

def rstrip (cs : List Char) : List Char := (cs.reverse.dropWhile sp).reverse

/-- First character exists and is not whitespace. -/
def headNoSp (cs : List Char) : Bool :=
  match cs.head? with
  | some c => !sp c
  | none => false

/-- Last character exists and is not whitespace. -/
def lastNoSp (cs : List Char) : Bool :=
  match cs.getLast? with
  | some c => !sp c
  | none => false

lemma dropWhile_sp_of_headNoSp (cs : List Char) (h : headNoSp cs = true) :
    cs.dropWhile sp = cs := by
  cases cs with
  | nil => simp [headNoSp] at h
  | cons c t =>
    have hc : sp c = false := by simpa [headNoSp] using h
    simp [List.dropWhile_cons, hc]

lemma headNoSp_reverse (cs : List Char) : headNoSp cs.reverse = lastNoSp cs := by
  unfold headNoSp lastNoSp
  rw [List.head?_reverse]

lemma pyStrip_eq_rstrip (cs : List Char) (h : headNoSp cs = true) :
    pyStrip cs = rstrip cs := by
  unfold pyStrip genStrip rstrip
  rw [dropWhile_sp_of_headNoSp cs h]

lemma rstrip_noop (cs : List Char) (h : lastNoSp cs = true) : rstrip cs = cs := by
  unfold rstrip
  rw [dropWhile_sp_of_headNoSp _ ((headNoSp_reverse cs).trans h), List.reverse_reverse]

lemma pyStrip_noop (cs : List Char) (h1 : headNoSp cs = true) (h2 : lastNoSp cs = true) :
    pyStrip cs = cs := by
  rw [pyStrip_eq_rstrip cs h1, rstrip_noop cs h2]

lemma pyStrip_cons_sp (c : Char) (cs : List Char) (h : sp c = true) :
    pyStrip (c :: cs) = pyStrip cs := by
  unfold pyStrip genStrip
  rw [List.dropWhile_cons, if_pos h]

lemma lastNoSp_ne_nil (cs : List Char) (h : lastNoSp cs = true) : cs ≠ [] := by
  intro hnil
  rw [hnil] at h
  simp [lastNoSp] at h

lemma lastNoSp_append (a b : List Char) (hb : b ≠ []) :
    lastNoSp (a ++ b) = lastNoSp b := by
  unfold lastNoSp
  rw [List.getLast?_append_of_ne_nil _ hb]

lemma rstrip_append (a b : List Char) :
    rstrip (a ++ b) = if rstrip b = [] then rstrip a else a ++ rstrip b := by
  unfold rstrip
  rw [List.reverse_append, List.dropWhile_append]
  by_cases hb : (b.reverse.dropWhile sp).isEmpty = true
  · rw [if_pos hb]
    rw [if_pos]
    simp only [List.isEmpty_iff] at hb
    rw [hb]
    rfl
  · rw [if_neg hb]
    rw [if_neg]
    · rw [List.reverse_append, List.reverse_reverse]
    · simp only [List.isEmpty_iff] at hb
      simp [hb]

lemma isPrefixOf_append_left (p a b : List Char) (h : p.isPrefixOf a = true) :
    p.isPrefixOf (a ++ b) = true := by
  rw [List.isPrefixOf_iff_prefix] at h ⊢
  exact h.trans (List.prefix_append a b)

lemma isPrefixOf_append_false (p a b : List Char) (hle : p.length ≤ a.length)
    (h : p.isPrefixOf a = false) : p.isPrefixOf (a ++ b) = false := by
  cases hx : p.isPrefixOf (a ++ b) with
  | false => rfl
  | true =>
    exfalso
    have hpre : p <+: a ++ b := List.isPrefixOf_iff_prefix.mp hx
    have heq : p = (a ++ b).take p.length := List.prefix_iff_eq_take.mp hpre
    have h2 : (a ++ b).take p.length = a.take p.length :=
      List.take_append_of_le_length hle
    have hpa : p <+: a := by
      rw [heq, h2]
      exact List.take_prefix _ _
    have := List.isPrefixOf_iff_prefix.mpr hpa
    rw [h] at this
    exact Bool.noConfusion this

lemma splitOnChar_ne_nil (sep : Char) (cs : List Char) : splitOnChar sep cs ≠ [] := by
  induction cs with
  | nil => simp [splitOnChar]
  | cons c t ih =>
    simp only [splitOnChar]
    cases h : splitOnChar sep t with
    | nil => simp
    | cons a b => by_cases hc : (c == sep) = true <;> simp [hc]

lemma splitOnChar_append (sep : Char) (xs ys : List Char)
    (h : ∀ c ∈ xs, (c == sep) = false) :
    splitOnChar sep (xs ++ sep :: ys) = xs :: splitOnChar sep ys := by
  induction xs with
  | nil =>
    simp only [List.nil_append, splitOnChar]
    cases hs : splitOnChar sep ys with
    | nil => exact absurd hs (splitOnChar_ne_nil sep ys)
    | cons a b => simp
  | cons c t ih =>
    have hc : (c == sep) = false := h c (by simp)
    simp only [List.cons_append, splitOnChar, List.append_eq]
    rw [ih (fun d hd => h d (by simp [hd]))]
    simp [hc]

lemma splitOnChar_no_sep (sep : Char) (xs : List Char)
    (h : ∀ c ∈ xs, (c == sep) = false) :
    splitOnChar sep xs = [xs] := by
  induction xs with
  | nil => rfl
  | cons c t ih =>
    have hc : (c == sep) = false := h c (by simp)
    simp only [splitOnChar]
    rw [ih (fun d hd => h d (by simp [hd]))]
    simp [hc]

lemma joinNl_ne_nil (ys : List (List Char)) (hne : ys ≠ [])
    (h : ∀ y ∈ ys, y ≠ []) : joinNl ys ≠ [] := by
  cases ys with
  | nil => exact absurd rfl hne
  | cons y t =>
    cases t with
    | nil => simpa [joinNl] using h y (by simp)
    | cons y2 t2 => simp [joinNl]

lemma splitOnChar_joinNl (ys : List (List Char)) (hne : ys ≠ [])
    (h : ∀ y ∈ ys, ∀ c ∈ y, (c == nlChar) = false) :
    splitOnChar nlChar (joinNl ys) = ys := by
  induction ys with
  | nil => exact absurd rfl hne
  | cons y t ih =>
    cases t with
    | nil => simp only [joinNl]; exact splitOnChar_no_sep _ _ (h y (by simp))
    | cons y2 t2 =>
      simp only [joinNl]
      rw [splitOnChar_append _ _ _ (h y (by simp))]
      rw [ih (by simp) (fun z hz => h z (by simp [hz]))]

lemma lastNoSp_joinNl (ys : List (List Char)) (hne : ys ≠ [])
    (h : ∀ y ∈ ys, y ≠ [] ∧ lastNoSp y = true) :
    lastNoSp (joinNl ys) = true := by
  induction ys with
  | nil => exact absurd rfl hne
  | cons y t ih =>
    cases t with
    | nil => simpa [joinNl] using (h y (by simp)).2
    | cons y2 t2 =>
      simp only [joinNl]
      have hj : joinNl (y2 :: t2) ≠ [] :=
        joinNl_ne_nil _ (by simp) (fun z hz => (h z (by simp [hz])).1)
      have ih2 := ih (by simp) (fun z hz => h z (by simp [hz]))
      rw [lastNoSp_append _ _ (by simp)]
      have hsplit : nlChar :: joinNl (y2 :: t2) = [nlChar] ++ joinNl (y2 :: t2) := rfl
      rw [hsplit, lastNoSp_append _ _ hj]
      exact ih2

def notaLabelSpL : List Char := "Nota: ".toList

def justLabelSpL : List Char := "Justificativa: ".toList

/-- The input schema of claim C6: a score line, a justification-label line
with remainder `x`, then further lines `ys`. -/
def mkResposta (ns x : List Char) (ys : List (List Char)) : String :=
  ((notaLabelSpL ++ ns) ++ nlChar :: ((justLabelSpL ++ x) ++ nlChar :: joinNl ys)).asString

lemma headNoSp_append (a b : List Char) (h : headNoSp a = true) :
    headNoSp (a ++ b) = true := by
  cases a with
  | nil => simp [headNoSp] at h
  | cons c t => simpa [headNoSp] using h

lemma stripJust (x : List Char) :
    notaLabelL.isPrefixOf (pyStrip (justLabelSpL ++ x)) = false ∧
    justLabelL.isPrefixOf (pyStrip (justLabelSpL ++ x)) = true := by
  have hh : headNoSp (justLabelSpL ++ x) = true :=
    headNoSp_append _ _ (by decide)
  rw [pyStrip_eq_rstrip _ hh, rstrip_append]
  by_cases hx : rstrip x = []
  · rw [if_pos hx]
    exact ⟨by decide, by decide⟩
  · rw [if_neg hx]
    exact ⟨isPrefixOf_append_false _ _ _ (by decide) (by decide),
           isPrefixOf_append_left _ _ _ (by decide)⟩

lemma extrairLoop_cons_nota (l : List Char) (rest : List (List Char))
    (nota : Option Int) (lendo : Bool) (acc : List (List Char)) (n : Int)
    (h1 : notaLabelL.isPrefixOf (pyStrip l) = true)
    (h2 : pyParseInt (notaToken (pyStrip l)) = some n) :
    extrairLoop (l :: rest) nota lendo acc = extrairLoop rest (some n) lendo acc := by
  simp [extrairLoop, h1, h2]

lemma extrairLoop_cons_just (l : List Char) (rest : List (List Char))
    (nota : Option Int) (lendo : Bool) (acc : List (List Char))
    (h1 : notaLabelL.isPrefixOf (pyStrip l) = false)
    (h2 : justLabelL.isPrefixOf (pyStrip l) = true) :
    extrairLoop (l :: rest) nota lendo acc = extrairLoop rest nota true acc := by
  simp [extrairLoop, h1, h2]

lemma extrairLoop_tail (ys : List (List Char))
    (h : ∀ y ∈ ys, y ≠ [] ∧ headNoSp y = true ∧ lastNoSp y = true ∧
      notaLabelL.isPrefixOf y = false ∧ justLabelL.isPrefixOf y = false) :
    ∀ (nota : Option Int) (acc : List (List Char)),
      extrairLoop ys nota true acc = .ok (nota, acc ++ ys) := by
  induction ys with
  | nil => intro nota acc; simp [extrairLoop]
  | cons y t ih =>
    intro nota acc
    obtain ⟨hne, hh, hl, hn, hj⟩ := h y (by simp)
    have hstrip : pyStrip y = y := pyStrip_noop y hh hl
    have hye : y.isEmpty = false := by
      cases y with
      | nil => exact absurd rfl hne
      | cons a b => rfl
    simp only [extrairLoop, hstrip, hn, hj, hye, Bool.false_eq_true, if_false,
      Bool.not_false, Bool.and_true]
    rw [ih (fun z hz => h z (by simp [hz])) nota (acc ++ [y])]
    simp

instance {e a : Type} [DecidableEq e] [DecidableEq a] : DecidableEq (Except e a) := fun u v =>
  match u, v with
  | .error e1, .error e2 => decidable_of_iff (e1 = e2) (by simp)
  | .error e1, .ok a2 => .isFalse (by simp)
  | .ok a1, .error e2 => .isFalse (by simp)
  | .ok a1, .ok a2 => decidable_of_iff (a1 = a2) (by simp)

/-- Counterexample to C6 as stated: on the spec's own example the remainder
of the justification-label line (`X`) is discarded — the loop only sets the
reading flag on that line — so the justification is `"Y"`, not `"X Y"`. -/
theorem c6_counterexample :
    extrair_nota_e_justificativa ("Nota: 160\nJustificativa: X\nY") =
      .ok (160, "Y") ∧
    extrair_nota_e_justificativa ("Nota: 160\nJustificativa: X\nY") ≠
      .ok (160, "X Y") := by
  decide

/-- Claim C6 amended: for an input made of a `Nota:` line with integer token
`ns`, a `Justificativa:` line with remainder `x`, and subsequent non-blank
lines `ys`, the parser returns the score together with the space-join of the
lines `ys` only — the remainder `x` of the label line is discarded. -/
theorem c6_amended (n : Int) (ns x : List Char) (ys : List (List Char))
    (hns_parse : pyParseInt ns = some n)
    (hns_head : headNoSp ns = true)
    (hns_last : lastNoSp ns = true)
    (hns_colon : ∀ c ∈ ns, (c == colonChar) = false)
    (hns_nl : ∀ c ∈ ns, (c == nlChar) = false)
    (hx_nl : ∀ c ∈ x, (c == nlChar) = false)
    (hys_ne : ys ≠ [])
    (hys : ∀ y ∈ ys, y ≠ [] ∧ headNoSp y = true ∧ lastNoSp y = true ∧
      (∀ c ∈ y, (c == nlChar) = false) ∧
      notaLabelL.isPrefixOf y = false ∧ justLabelL.isPrefixOf y = false) :
    extrair_nota_e_justificativa (mkResposta ns x ys) =
      .ok (n, (joinSpace ys).asString) := by
  have hysne : ∀ y ∈ ys, y ≠ [] := fun y hy => (hys y hy).1
  have hysnl : ∀ y ∈ ys, ∀ c ∈ y, (c == nlChar) = false :=
    fun y hy => (hys y hy).2.2.2.1
  have htoList : (mkResposta ns x ys).toList =
      (notaLabelSpL ++ ns) ++ nlChar ::
        ((justLabelSpL ++ x) ++ nlChar :: joinNl ys) := rfl
  have hl1_head : headNoSp (notaLabelSpL ++ ns) = true :=
    headNoSp_append _ _ (by decide)
  have hl1_last : lastNoSp (notaLabelSpL ++ ns) = true := by
    rw [lastNoSp_append _ _ (lastNoSp_ne_nil ns hns_last)]
    exact hns_last
  have hwhole_head : headNoSp ((mkResposta ns x ys).toList) = true := by
    rw [htoList]
    exact headNoSp_append _ _ hl1_head
  have hjoin_ne : joinNl ys ≠ [] := joinNl_ne_nil ys hys_ne hysne
  have hwhole_last : lastNoSp ((mkResposta ns x ys).toList) = true := by
    rw [htoList]
    rw [lastNoSp_append _ _ (by simp)]
    have h1 : nlChar :: ((justLabelSpL ++ x) ++ nlChar :: joinNl ys) =
        [nlChar] ++ ((justLabelSpL ++ x) ++ ([nlChar] ++ joinNl ys)) := rfl
    rw [h1, lastNoSp_append _ _ (by simp), lastNoSp_append _ _ (by simp [hjoin_ne]),
      lastNoSp_append _ _ hjoin_ne]
    exact lastNoSp_joinNl ys hys_ne (fun y hy => ⟨(hys y hy).1, (hys y hy).2.2.1⟩)
  have hlab1 : ∀ c ∈ notaLabelSpL, (c == nlChar) = false := by decide
  have hlab2 : ∀ c ∈ justLabelSpL, (c == nlChar) = false := by decide
  have hl1_nl : ∀ c ∈ notaLabelSpL ++ ns, (c == nlChar) = false := by
    intro c hc
    rcases List.mem_append.mp hc with h | h
    · exact hlab1 c h
    · exact hns_nl c h
  have hl2_nl : ∀ c ∈ justLabelSpL ++ x, (c == nlChar) = false := by
    intro c hc
    rcases List.mem_append.mp hc with h | h
    · exact hlab2 c h
    · exact hx_nl c h
  have hlines : linhasDe (mkResposta ns x ys) =
      (notaLabelSpL ++ ns) :: (justLabelSpL ++ x) :: ys := by
    unfold linhasDe
    rw [pyStrip_noop _ hwhole_head hwhole_last, htoList]
    rw [splitOnChar_append _ _ _ hl1_nl, splitOnChar_append _ _ _ hl2_nl,
      splitOnChar_joinNl ys hys_ne hysnl]
  have hl1_strip : pyStrip (notaLabelSpL ++ ns) = notaLabelSpL ++ ns :=
    pyStrip_noop _ hl1_head hl1_last
  have htok : notaToken (notaLabelSpL ++ ns) = ns := by
    unfold notaToken
    have hsplit1 : notaLabelSpL ++ ns = "Nota".toList ++ colonChar :: (spaceChar :: ns) := by
      have h0 : notaLabelSpL = "Nota".toList ++ colonChar :: [spaceChar] := by decide
      rw [h0, List.append_assoc]
      rfl
    have hsn : ∀ c ∈ spaceChar :: ns, (c == colonChar) = false := by
      intro c hc
      rcases List.mem_cons.mp hc with rfl | h
      · decide
      · exact hns_colon c h
    rw [hsplit1, splitOnChar_append _ _ _ (by decide), splitOnChar_no_sep _ _ hsn]
    show pyStrip (spaceChar :: ns) = ns
    rw [pyStrip_cons_sp _ _ (by decide)]
    exact pyStrip_noop ns hns_head hns_last
  have h1a : notaLabelL.isPrefixOf (pyStrip (notaLabelSpL ++ ns)) = true := by
    rw [hl1_strip]
    exact isPrefixOf_append_left _ _ _ (by decide)
  have h1b : pyParseInt (notaToken (pyStrip (notaLabelSpL ++ ns))) = some n := by
    rw [hl1_strip, htok]
    exact hns_parse
  unfold extrair_nota_e_justificativa
  rw [hlines]
  rw [extrairLoop_cons_nota _ _ _ _ _ n h1a h1b]
  rw [extrairLoop_cons_just _ _ _ _ _ (stripJust x).1 (stripJust x).2]
  rw [extrairLoop_tail ys
    (fun y hy => ⟨(hys y hy).1, (hys y hy).2.1, (hys y hy).2.2.1,
      (hys y hy).2.2.2.2.1, (hys y hy).2.2.2.2.2⟩) (some n) []]
  rfl

/-- Witness for C6 (amended): instantiating the schema to the spec's example
text yields score 160 and justification `"Y"`. -/
theorem c6_amended_witness :
    extrair_nota_e_justificativa (mkResposta ("160".toList) ("X".toList) [("Y".toList)]) =
      .ok (160, (joinSpace [("Y".toList)]).asString) ∧
    mkResposta ("160".toList) ("X".toList) [("Y".toList)] =
      "Nota: 160\nJustificativa: X\nY" ∧
    (joinSpace [("Y".toList)]).asString = "Y" := by
  refine ⟨c6_amended 160 ("160".toList) ("X".toList) [("Y".toList)]
    (by decide) (by decide) (by decide) (by decide) (by decide) (by decide)
    (by decide) (by decide), by decide, by decide⟩

/-! ## C7: structured-block parser -/

lemma containsSub_iff (n h : List Char) :
    containsSub n h = true ↔ ∃ p q, h = p ++ (n ++ q) := by
  induction h with
  | nil =>
    simp only [containsSub, List.isEmpty_iff]
    constructor
    · intro hn
      exact ⟨[], [], by simp [hn]⟩
    · rintro ⟨p, q, hpq⟩
      have := hpq.symm
      simp only [List.append_eq_nil] at this
      exact this.2.1
  | cons c t ih =>
    simp only [containsSub, Bool.or_eq_true, ih]
    constructor
    · rintro (hpre | ⟨p, q, rfl⟩)
      · obtain ⟨q, hq⟩ := List.isPrefixOf_iff_prefix.mp hpre
        exact ⟨[], q, by simp [hq.symm]⟩
      · exact ⟨c :: p, q, by simp⟩
    · rintro ⟨p, q, hpq⟩
      cases p with
      | nil =>
        left
        rw [List.isPrefixOf_iff_prefix]
        exact ⟨q, by simpa using hpq.symm⟩
      | cons p0 pt =>
        right
        simp only [List.cons_append] at hpq
        exact ⟨pt, q, (List.cons.injEq _ _ _ _).mp hpq |>.2⟩

lemma soa_at_head (pat rest : List Char) (hne : pat ≠ []) :
    splitOnceAfter pat (pat ++ rest) = some ([], rest) := by
  cases pat with
  | nil => exact absurd rfl hne
  | cons p pt =>
    have hpre : (p :: pt).isPrefixOf (p :: (pt ++ rest)) = true := by
      rw [List.isPrefixOf_iff_prefix]
      exact ⟨rest, by simp⟩
    show splitOnceAfter (p :: pt) (p :: (pt ++ rest)) = _
    simp only [splitOnceAfter, hpre, if_true]
    rw [show p :: (pt ++ rest) = (p :: pt) ++ rest from rfl, List.drop_left]

lemma endPat_no_front_match (a Y : List Char) (hne : a ≠ [])
    (hq : containsSub erroPatL a = false) :
    endPatL.isPrefixOf (a ++ (endPatL ++ Y)) = false := by
  cases hx : endPatL.isPrefixOf (a ++ (endPatL ++ Y)) with
  | false => rfl
  | true =>
    exfalso
    have hpre : endPatL <+: a ++ (endPatL ++ Y) := List.isPrefixOf_iff_prefix.mp hx
    obtain ⟨t, ht⟩ := hpre
    have h9 : endPatL.length = 9 := by decide
    by_cases hlen : endPatL.length ≤ a.length
    · have h1 : endPatL = (a ++ (endPatL ++ Y)).take endPatL.length :=
        List.prefix_iff_eq_take.mp ⟨t, ht⟩
      rw [List.take_append_of_le_length hlen] at h1
      have h2 : endPatL <+: a := h1 ▸ List.take_prefix _ _
      obtain ⟨r, hr⟩ := h2
      have hcon : containsSub erroPatL a = true := by
        rw [containsSub_iff]
        refine ⟨"\nFIM_".toList, r, ?_⟩
        rw [← hr, show endPatL = "\nFIM_".toList ++ erroPatL from by decide,
          List.append_assoc]
      rw [hq] at hcon
      exact Bool.noConfusion hcon
    · push_neg at hlen
      have hk1 : 1 ≤ a.length := by
        cases a with
        | nil => exact absurd rfl hne
        | cons _ _ => simp
      have h2 : endPatL.drop a.length ++ t = endPatL ++ Y := by
        have hd := congrArg (fun l => l.drop a.length) ht
        simp only at hd
        rw [List.drop_append_of_le_length (Nat.le_of_lt hlen),
          List.drop_left' rfl] at hd
        exact hd
      have hne2 : endPatL.drop a.length ≠ [] := by
        intro hd
        have := congrArg List.length hd
        simp only [List.length_drop, List.length_nil] at this
        omega
      have h4 : (endPatL.drop a.length).head? = some nlChar := by
        have hh := congrArg List.head? h2
        rw [List.head?_append_of_ne_nil _ hne2] at hh
        rw [hh]
        rfl
      have h5 : ∀ k, 1 ≤ k → k < 9 → (endPatL.drop k).head? ≠ some nlChar := by decide
      exact h5 a.length hk1 (by omega) h4

lemma soa_boundary (a Y : List Char) (hq : containsSub erroPatL a = false) :
    splitOnceAfter endPatL (a ++ (endPatL ++ Y)) = some (a, Y) := by
  induction a with
  | nil => simpa using soa_at_head endPatL Y (by decide)
  | cons c t ih =>
    have hq2 : containsSub erroPatL t = false := by
      have h := hq
      simp only [containsSub, Bool.or_eq_false_iff] at h
      exact h.2
    have hnp : endPatL.isPrefixOf (c :: (t ++ (endPatL ++ Y))) = false :=
      endPat_no_front_match (c :: t) Y (by simp) hq
    show splitOnceAfter endPatL (c :: (t ++ (endPatL ++ Y))) = _
    simp only [splitOnceAfter, hnp, Bool.false_eq_true, if_false]
    rw [ih hq2]

lemma soa_some_length (pat hay : List Char) :
    ∀ pre post, splitOnceAfter pat hay = some (pre, post) →
      pre.length + pat.length + post.length = hay.length := by
  induction hay with
  | nil =>
    intro pre post h
    cases pat with
    | nil =>
      simp only [splitOnceAfter, List.isEmpty_nil, if_true, Option.some.injEq] at h
      obtain ⟨rfl, rfl⟩ := Prod.mk.injEq .. ▸ (Prod.mk.inj h.symm)
      simp
    | cons p pt =>
      simp [splitOnceAfter] at h
  | cons c cs ih =>
    intro pre post h
    simp only [splitOnceAfter] at h
    by_cases hp : pat.isPrefixOf (c :: cs) = true
    · rw [if_pos hp] at h
      have hle : pat.length ≤ (c :: cs).length :=
        (List.isPrefixOf_iff_prefix.mp hp).length_le
      simp only [Option.some.injEq] at h
      have hpre : pre = [] := (Prod.mk.inj h).1.symm
      have hpost : post = (c :: cs).drop pat.length := (Prod.mk.inj h).2.symm
      subst hpre hpost
      simp only [List.length_nil, List.length_drop]
      omega
    · rw [if_neg hp] at h
      cases hs : splitOnceAfter pat cs with
      | none => rw [hs] at h; exact absurd h (by simp)
      | some pr =>
        rw [hs] at h
        obtain ⟨pre2, post2⟩ := pr
        simp only [Option.some.injEq] at h
        have h1 : c :: pre2 = pre := (Prod.mk.inj h).1
        have h2 : post2 = post := (Prod.mk.inj h).2
        have := ih pre2 post2 hs
        subst h1 h2
        simp only [List.length_cons]
        omega

def mkBloco (b : List Char) : List Char := startPatL ++ b ++ endPatL

def concatBlocos : List (List Char) → List Char
  | [] => []
  | b :: bs => mkBloco b ++ concatBlocos bs

lemma step_concat (b : List Char) (bs : List (List Char))
    (hq : containsSub erroPatL b = false) :
    step (concatBlocos (b :: bs)) = some (b, concatBlocos bs) := by
  have hshape : concatBlocos (b :: bs) =
      startPatL ++ (b ++ (endPatL ++ concatBlocos bs)) := by
    show mkBloco b ++ concatBlocos bs = _
    unfold mkBloco
    simp [List.append_assoc]
  rw [hshape]
  unfold step
  rw [soa_at_head _ _ (by decide)]
  rw [Option.some_bind]
  rw [show ((([] : List Char), b ++ (endPatL ++ concatBlocos bs))).2 =
    b ++ (endPatL ++ concatBlocos bs) from rfl]
  rw [soa_boundary _ _ hq]
  rfl

lemma step_some_length (s b r : List Char) (h : step s = some (b, r)) :
    r.length < s.length := by
  unfold step at h
  cases h1 : splitOnceAfter startPatL s with
  | none => rw [h1] at h; simp at h
  | some pr =>
    rw [h1, Option.some_bind] at h
    cases h2 : splitOnceAfter endPatL pr.2 with
    | none => rw [h2] at h; simp at h
    | some br =>
      rw [h2] at h
      obtain ⟨pre1, post1⟩ := pr
      obtain ⟨pre2, post2⟩ := br
      simp only [Option.map_some', Option.some.injEq] at h
      have hb : pre2 = b := (Prod.mk.inj h).1
      have hr : post2 = r := (Prod.mk.inj h).2
      have l1 := soa_some_length startPatL s pre1 post1 h1
      have l2 := soa_some_length endPatL post1 pre2 post2 h2
      have h9 : endPatL.length = 9 := by decide
      have h5 : startPatL.length = 5 := by decide
      subst hb hr
      omega

lemma blocosFuel_congr : ∀ (f1 f2 : Nat) (s : List Char),
    s.length < f1 → s.length < f2 → blocosFuel f1 s = blocosFuel f2 s := by
  intro f1
  induction f1 with
  | zero => intro f2 s h1 h2; omega
  | succ f ih =>
    intro f2 s h1 h2
    cases f2 with
    | zero => omega
    | succ g =>
      simp only [blocosFuel]
      cases hs : step s with
      | none => rfl
      | some br =>
        obtain ⟨b, r⟩ := br
        have hr := step_some_length s b r hs
        show b :: blocosFuel f r = b :: blocosFuel g r
        rw [ih g r (by omega) (by omega)]

lemma blocos_step_some (s b r : List Char) (h : step s = some (b, r)) :
    blocos s = b :: blocos r := by
  have hr := step_some_length s b r h
  show blocosFuel (s.length + 1) s = _
  simp only [blocosFuel, h]
  rw [blocosFuel_congr s.length (r.length + 1) r (by omega) (by omega)]
  rfl

lemma blocos_concat (bs : List (List Char))
    (h : ∀ b ∈ bs, containsSub erroPatL b = false) :
    blocos (concatBlocos bs) = bs := by
  induction bs with
  | nil => rfl
  | cons b t ih =>
    rw [blocos_step_some _ _ _ (step_concat b t (h b (by simp)))]
    rw [ih (fun z hz => h z (by simp [hz]))]

/-- Counterexample to C7 as stated: the excerpt field is stripped of ALL
surrounding quote characters, not a single pair: on a block whose excerpt is
written with doubled quotes the record holds `abc`, where single-pair
stripping would keep one pair. -/
theorem c7_counterexample :
    extrair_erros_do_resultado ("ERRO\nDescrição: D\nTrecho: \"\"abc\"\"\nFIM_ERRO") =
      [[("descrição", "D"), ("trecho", "abc")]] ∧
    extrair_erros_do_resultado ("ERRO\nDescrição: D\nTrecho: \"\"abc\"\"\nFIM_ERRO") ≠
      [[("descrição", "D"), ("trecho", "\"abc\"")]] := by
  constructor
  · rfl
  · intro h
    have h2 : ([[("descrição", "D"), ("trecho", "abc")]] : List Erro) =
        [[("descrição", "D"), ("trecho", "\"abc\"")]] := by
      rw [← h]
      rfl
    simp [Erro] at h2
  
/-- Claim C7 amended: on any concatenation of delimited blocks whose bodies
do not themselves contain the marker word, the parser returns one record per
block, in source order, keeping exactly the blocks that carry both a
description and an excerpt field (others silently dropped); the excerpt is
stripped of all surrounding quotes.  The parser is a total function: it
never raises. -/
theorem c7_amended (bs : List (List Char))
    (h : ∀ b ∈ bs, containsSub erroPatL b = false) :
    extrair_erros_do_resultado ((concatBlocos bs).asString) =
      ((bs.map parseBloco).filter temDescricaoETrecho) := by
  unfold extrair_erros_do_resultado
  have ht : ((concatBlocos bs).asString).toList = concatBlocos bs := rfl
  rw [ht, blocos_concat bs h]

set_option maxRecDepth 40000 in
/-- Witness for C7 (amended): two blocks, the second lacking a description
field; the parser returns exactly the first block's record. -/
theorem c7_amended_witness :
    extrair_erros_do_resultado
        ((concatBlocos [("Descrição: D\nTrecho: \"x\"".toList),
          ("Trecho: \"y\"".toList)]).asString) =
      (([("Descrição: D\nTrecho: \"x\"".toList),
        ("Trecho: \"y\"".toList)].map parseBloco).filter temDescricaoETrecho) ∧
    (([("Descrição: D\nTrecho: \"x\"".toList),
      ("Trecho: \"y\"".toList)].map parseBloco).filter temDescricaoETrecho) =
      [[("descrição", "D"), ("trecho", "x")]] := by
  refine ⟨c7_amended _ (by decide), by decide⟩
